import Mathlib

/-!
# Verification of `pypb/dist.py` (MW4S: multiple worker, single source, single sink)

Shallow embedding of the protocol layer in `src/pypb/dist.py`.  The transport
(ZeroMQ REQ/REP sockets moving pickled Python objects) is modelled by explicit
lists of wire values: each blocking receive loop becomes a function consuming a
list of incoming messages and returning the updated endpoint state, the replies
it sent, the unconsumed input, and how the call ended (returned normally,
raised the protocol `Error`, or is still blocked waiting for input).

Wire values are the Python objects that `send_pyobj`/`recv_pyobj` move:
`None` (the null acknowledgement / plain task request), the four `Message`
subclasses, and opaque application payloads (`obj a`).  Application payloads
are objects of application classes, which pickling round-trips and which never
satisfy the `isinstance(..., Message)` checks of the protocol code.
-/

namespace Pypb

/-- Buffer time letting the sink request socket at source close
(`CLOSESYNC = 15` in `dist.py`). -/
def CLOSESYNC : Nat := 15

/-- A value on the wire: Python `None`, one of the four protocol `Message`
subclasses, or an opaque application payload. -/
inductive Wire (α : Type) where
  | pyNone
  | workerJoin
  | workerExited
  | noMoreJobs
  | sourceExited
  | obj (a : α)
deriving Repr, DecidableEq

/-- True of `WorkerJoinMessage` wire values. -/
def isJoin {α : Type} : Wire α → Bool
  | .workerJoin => true
  | _ => false

/-- True of `WorkerExitedMessage` wire values. -/
def isExit {α : Type} : Wire α → Bool
  | .workerExited => true
  | _ => false

/-- Number of `WorkerJoinMessage`s in a delivery sequence, as an integer. -/
def joins {α : Type} (l : List (Wire α)) : Int :=
  (l.countP isJoin : Nat)

/-- Number of `WorkerExitedMessage`s in a delivery sequence, as an integer. -/
def exits {α : Type} (l : List (Wire α)) : Int :=
  (l.countP isExit : Nat)

/-! ## Source -/

/-- State of a `Source` object: its worker counter, its `closed` flag, and
whether each of its two sockets (`ssock` reply socket, `tsock` request socket
to the sink) is still open. -/
structure SourceState where
  nworkers : Int
  closed : Bool
  ssockOpen : Bool
  tsockOpen : Bool
deriving Repr, DecidableEq

/-- A freshly constructed `Source`: zero workers, not closed, both sockets
open. -/
def sourceInit : SourceState := ⟨0, false, true, true⟩

/-- How a call to `Source.send` ended. -/
inductive SendOut where
  | sent
  | blocked
  | err
deriving Repr, DecidableEq

/-- Result of a `Source.send` call: final state, replies sent on `ssock` in
order, unconsumed input, and how the call ended. -/
structure SendRes (α : Type) where
  state : SourceState
  replies : List (Wire α)
  rest : List (Wire α)
  out : SendOut
deriving Repr, DecidableEq

/-- `Source.send(task)`: loop receiving requests on `ssock`; a `None` request
is answered with the task and the call returns; `WorkerJoinMessage` is
acknowledged with `None` and increments `nworkers`; `WorkerExitedMessage` is
acknowledged and decrements `nworkers`; anything else raises `Error`. -/
def sourceSend {α : Type} (task : α) (st : SourceState) :
    List (Wire α) → SendRes α
  | [] => ⟨st, [], [], .blocked⟩
  | req :: rest =>
    match req with
    | .pyNone => ⟨st, [.obj task], rest, .sent⟩
    | .workerJoin =>
        let r := sourceSend task { st with nworkers := st.nworkers + 1 } rest
        ⟨r.state, .pyNone :: r.replies, r.rest, r.out⟩
    | .workerExited =>
        let r := sourceSend task { st with nworkers := st.nworkers - 1 } rest
        ⟨r.state, .pyNone :: r.replies, r.rest, r.out⟩
    | _ => ⟨st, [], rest, .err⟩

/-- How the drain loop inside `Source.close` ended. -/
inductive DrainOut where
  | done
  | blocked
  | err
deriving Repr, DecidableEq

/-- Result of the `while self.nworkers > 0` drain loop of `Source.close`:
final state, the (request, reply) pairs serviced, unconsumed input, and how
the loop ended. -/
structure DrainRes (α : Type) where
  state : SourceState
  pairs : List (Wire α × Wire α)
  rest : List (Wire α)
  out : DrainOut
deriving Repr, DecidableEq

/-- The drain loop of `Source.close`: while `nworkers > 0`, receive a request;
`None` is answered with `NoMoreJobsMessage`, joins/exits are acknowledged with
`None` and update the count, anything else raises `Error`. -/
def sourceDrainLoop {α : Type} (st : SourceState) :
    List (Wire α) → DrainRes α
  | [] =>
    if 0 < st.nworkers then ⟨st, [], [], .blocked⟩ else ⟨st, [], [], .done⟩
  | req :: rest =>
    if 0 < st.nworkers then
      match req with
      | .pyNone =>
          let r := sourceDrainLoop st rest
          ⟨r.state, (Wire.pyNone, Wire.noMoreJobs) :: r.pairs, r.rest, r.out⟩
      | .workerJoin =>
          let r := sourceDrainLoop { st with nworkers := st.nworkers + 1 } rest
          ⟨r.state, (Wire.workerJoin, Wire.pyNone) :: r.pairs, r.rest, r.out⟩
      | .workerExited =>
          let r := sourceDrainLoop { st with nworkers := st.nworkers - 1 } rest
          ⟨r.state, (Wire.workerExited, Wire.pyNone) :: r.pairs, r.rest, r.out⟩
      | _ => ⟨st, [], rest, .err⟩
    else ⟨st, [], req :: rest, .done⟩

/-- How a call to `Source.close` ended. -/
inductive CloseOut where
  | noop
  | done
  | blocked
  | errInvalidReq
  | errBadSinkReply
deriving Repr, DecidableEq

/-- Result of a `Source.close` call: final state, serviced (request, reply)
pairs on `ssock`, unconsumed `ssock` input, the message sent on `tsock` to
the sink (if the drain completed), and how the call ended. -/
structure SourceCloseRes (α : Type) where
  state : SourceState
  pairs : List (Wire α × Wire α)
  rest : List (Wire α)
  sinkMsg : Option (Wire α)
  out : CloseOut
deriving Repr, DecidableEq

/-- The tail of `Source.close()` after the drain loop: if the drain raised or
blocked, so does the close; if it completed, send `SourceExitedMessage` to
the sink, require a `None` reply (anything else raises `Error`), and close
both sockets. -/
def sourceCloseAux {α : Type} (r : DrainRes α)
    (sinkReply : Wire α) : SourceCloseRes α :=
  match r.out with
  | .blocked => ⟨r.state, r.pairs, r.rest, none, .blocked⟩
  | .err => ⟨r.state, r.pairs, r.rest, none, .errInvalidReq⟩
  | .done =>
    match sinkReply with
    | .pyNone =>
        ⟨{ r.state with tsockOpen := false, ssockOpen := false },
          r.pairs, r.rest, some Wire.sourceExited, .done⟩
    | _ => ⟨r.state, r.pairs, r.rest, some Wire.sourceExited, .errBadSinkReply⟩

/-- `Source.close()`: no-op if already closed; otherwise set `closed`, run the
drain loop, then perform the `SourceExited` handshake and socket teardown.
`sinkReply` is the reply the sink sends back to the `SourceExitedMessage`. -/
def sourceClose {α : Type} (st : SourceState) (msgs : List (Wire α))
    (sinkReply : Wire α) : SourceCloseRes α :=
  if st.closed then ⟨st, [], msgs, none, .noop⟩
  else sourceCloseAux (sourceDrainLoop { st with closed := true } msgs) sinkReply

/-! ## Sink -/

/-- State of a `Sink` object: its worker counter, the `source_closed` flag,
its own `closed` flag, and whether its reply socket is still open. -/
structure SinkState where
  nworkers : Int
  source_closed : Bool
  closed : Bool
  tsockOpen : Bool
deriving Repr, DecidableEq

/-- A freshly constructed `Sink`. -/
def sinkInit : SinkState := ⟨0, false, false, true⟩

/-- The state update `Sink.next` performs on one received message: joins and
exits adjust `nworkers`, `SourceExitedMessage` sets `source_closed`, and any
other value leaves the state unchanged (it is yielded as a result). -/
def sinkStep {α : Type} (st : SinkState) : Wire α → SinkState
  | .workerJoin => { st with nworkers := st.nworkers + 1 }
  | .workerExited => { st with nworkers := st.nworkers - 1 }
  | .sourceExited => { st with source_closed := true }
  | _ => st

/-- How a single `Sink.next` call ended: it returned a result, raised
`StopIteration`, or is blocked waiting for input. -/
inductive SinkOut (α : Type) where
  | yield (r : Wire α)
  | stop
  | blocked
deriving Repr, DecidableEq

/-- Result of a single `Sink.next` call: final state, number of `None`
acknowledgements sent, unconsumed input, and how the call ended. -/
structure SinkNextRes (α : Type) where
  state : SinkState
  acks : Nat
  rest : List (Wire α)
  out : SinkOut α
deriving Repr, DecidableEq

/-- `Sink.next()`: while `not source_closed or nworkers > 0`, receive a
message and immediately acknowledge with `None`; joins/exits update the
count, `SourceExitedMessage` sets the flag, and anything else is returned as
the next result.  When the loop condition fails, `StopIteration` is raised. -/
def sinkNext {α : Type} (st : SinkState) : List (Wire α) → SinkNextRes α
  | [] =>
    if !st.source_closed || decide (0 < st.nworkers) then ⟨st, 0, [], .blocked⟩
    else ⟨st, 0, [], .stop⟩
  | m :: rest =>
    if !st.source_closed || decide (0 < st.nworkers) then
      match m with
      | .workerJoin =>
          let r := sinkNext { st with nworkers := st.nworkers + 1 } rest
          ⟨r.state, r.acks + 1, r.rest, r.out⟩
      | .workerExited =>
          let r := sinkNext { st with nworkers := st.nworkers - 1 } rest
          ⟨r.state, r.acks + 1, r.rest, r.out⟩
      | .sourceExited =>
          let r := sinkNext { st with source_closed := true } rest
          ⟨r.state, r.acks + 1, r.rest, r.out⟩
      | r => ⟨st, 1, rest, .yield r⟩
    else ⟨st, 0, m :: rest, .stop⟩

/-- Result of draining a `Sink` by repeated `next()` calls: final state, the
results yielded in order, unconsumed input, and whether the sequence ended by
`StopIteration` (`stopped = true`) or by running out of delivered input. -/
structure SinkDrainRes (α : Type) where
  state : SinkState
  yields : List (Wire α)
  rest : List (Wire α)
  stopped : Bool
deriving Repr, DecidableEq

/-- The sink's consumption loop: `next()` called repeatedly until it raises
`StopIteration` or blocks.  Each call re-evaluates the loop condition
`not source_closed or nworkers > 0` before receiving. -/
def sinkDrain {α : Type} (st : SinkState) : List (Wire α) → SinkDrainRes α
  | [] => ⟨st, [], [], st.source_closed && decide (st.nworkers ≤ 0)⟩
  | m :: rest =>
    if st.source_closed && decide (st.nworkers ≤ 0) then ⟨st, [], m :: rest, true⟩
    else
      match m with
      | .workerJoin => sinkDrain (sinkStep st (Wire.workerJoin : Wire α)) rest
      | .workerExited => sinkDrain (sinkStep st (Wire.workerExited : Wire α)) rest
      | .sourceExited => sinkDrain (sinkStep st (Wire.sourceExited : Wire α)) rest
      | r =>
          let d := sinkDrain st rest
          ⟨d.state, r :: d.yields, d.rest, d.stopped⟩

/-- `Sink.close()`: no-op if already closed; otherwise set `closed`, sleep
`CLOSESYNC` seconds (the returned `Bool` records whether the sleep was
performed), and close the socket. -/
def sinkClose (st : SinkState) : SinkState × Bool :=
  if st.closed then (st, false)
  else ({ st with closed := true, tsockOpen := false }, true)

/-! ## Worker -/

/-- State of a `Worker` object: just its `closed` flag. -/
structure WorkerState where
  closed : Bool
deriving Repr, DecidableEq

/-- Result of `Worker.__init__`: the constructed worker (or `none` if a
handshake raised `Error`), the messages sent to the source and to the sink,
and whether `Error` was raised. -/
structure WorkerInitRes (α : Type) where
  worker : Option WorkerState
  sourceMsgs : List (Wire α)
  sinkMsgs : List (Wire α)
  errored : Bool
deriving Repr, DecidableEq

/-- `Worker.__init__`: send `WorkerJoinMessage` to the source and require a
`None` reply, then send `WorkerJoinMessage` to the sink and require a `None`
reply; any other reply raises `Error` at that point. -/
def workerInit {α : Type} (sourceReply sinkReply : Wire α) : WorkerInitRes α :=
  match sourceReply with
  | .pyNone =>
    match sinkReply with
    | .pyNone => ⟨some ⟨false⟩, [.workerJoin], [.workerJoin], false⟩
    | _ => ⟨none, [.workerJoin], [.workerJoin], true⟩
  | _ => ⟨none, [.workerJoin], [], true⟩

/-- The request `Worker.next` sends to the source: Python `None`. -/
def workerRequest {α : Type} : Wire α := .pyNone

/-- `Worker.next()`: given the source's reply, `NoMoreJobsMessage` raises
`StopIteration` (`none`, end of the task sequence); any other reply is
returned as the next task. -/
def workerNext {α : Type} (reply : Wire α) : Option (Wire α) :=
  match reply with
  | .noMoreJobs => none
  | t => some t

/-- `Worker.send(result)`: send the result object to the sink and require a
`None` reply.  Returns the wire value actually sent and whether `Error` was
raised on the reply. -/
def workerSend {α : Type} (result : α) (reply : Wire α) : Wire α × Bool :=
  (.obj result,
    match reply with
    | .pyNone => false
    | _ => true)

/-- Result of `Worker.close`: final state, messages sent to the source and
the sink, and whether `Error` was raised. -/
structure WorkerCloseRes (α : Type) where
  state : WorkerState
  sourceMsgs : List (Wire α)
  sinkMsgs : List (Wire α)
  errored : Bool
deriving Repr, DecidableEq

/-- `Worker.close()`: no-op if already closed; otherwise set `closed`, send
`WorkerExitedMessage` to the source and require a `None` reply, then send
`WorkerExitedMessage` to the sink and require a `None` reply; any other reply
raises `Error` at that point (so a bad source reply means the sink is never
told). -/
def workerClose {α : Type} (st : WorkerState) (sourceReply sinkReply : Wire α) :
    WorkerCloseRes α :=
  if st.closed then ⟨st, [], [], false⟩
  else
    match sourceReply with
    | .pyNone =>
      match sinkReply with
      | .pyNone => ⟨⟨true⟩, [.workerExited], [.workerExited], false⟩
      | _ => ⟨⟨true⟩, [.workerExited], [.workerExited], true⟩
    | _ => ⟨⟨true⟩, [.workerExited], [], true⟩

/-! ## Classification helpers -/

/-- True of wire values that `Sink.next` consumes silently (the three
`isinstance` branches): joins, exits, and `SourceExitedMessage`.  Everything
else is yielded as a result. -/
def isCtrl {α : Type} : Wire α → Bool
  | .workerJoin => true
  | .workerExited => true
  | .sourceExited => true
  | _ => false

/-- True when the delivery sequence still holds a value the sink would yield
as a result. -/
def hasResult {α : Type} (l : List (Wire α)) : Bool :=
  l.any (fun m => !isCtrl m)

/-- The sink does not hit its exhaustion condition while a result is still
undelivered: at every receive point whose remaining input still holds a
result, the loop condition `not source_closed or nworkers > 0` is true.  This
is what per-socket FIFO plus the protocol's join-before-result-before-exit
ordering guarantees in a real deployment. -/
def noEarlyStop {α : Type} (st : SinkState) : List (Wire α) → Bool
  | [] => true
  | m :: rest =>
      (!hasResult (m :: rest) || !(st.source_closed && decide (st.nworkers ≤ 0)))
        && noEarlyStop (sinkStep st m) rest

/-- True of requests that are neither the plain `None` task request nor a
join/exit message: `Source.send` raises `Error` on them. -/
def isOther {α : Type} : Wire α → Bool
  | .pyNone => false
  | .workerJoin => false
  | .workerExited => false
  | _ => true

/-- Running join/exit counter check: starting from `n`, the counter stays
nonnegative after every message of the list (joins add one, exits subtract
one, other messages leave it unchanged). -/
def countOk {α : Type} (n : Int) : List (Wire α) → Bool
  | [] => true
  | m :: rest =>
      let n2 := n + (if isJoin m then 1 else 0) - (if isExit m then 1 else 0)
      decide (0 ≤ n2) && countOk n2 rest

/-! ## Lemmas about the sink's consumption loop -/

lemma sinkDrain_yields_eq {α : Type} (msgs : List (Wire α)) (st : SinkState)
    (h : noEarlyStop st msgs = true) :
    (sinkDrain st msgs).yields = msgs.filter (fun m => !isCtrl m) := by
  induction msgs generalizing st with
  | nil => simp [sinkDrain]
  | cons m rest ih =>
    rw [noEarlyStop, Bool.and_eq_true] at h
    obtain ⟨h1, h2⟩ := h
    by_cases hstop : (st.source_closed && decide (st.nworkers ≤ 0)) = true
    · have hres : hasResult (m :: rest) = false := by
        rcases Bool.or_eq_true_iff.mp h1 with h' | h'
        · simpa using h'
        · simp [hstop] at h'
      have hall : ∀ x ∈ m :: rest, isCtrl x = true := by
        intro x hx
        by_contra hc
        have : hasResult (m :: rest) = true :=
          List.any_eq_true.mpr ⟨x, hx, by simp [hc]⟩
        simp [this] at hres
      have hfil : (m :: rest).filter (fun x => !isCtrl x) = [] := by
        rw [List.filter_eq_nil_iff]
        intro x hx
        simp [hall x hx]
      rw [hfil]
      simp [sinkDrain, hstop]
    · cases m with
      | workerJoin =>
          simpa [sinkDrain, hstop, isCtrl] using ih _ h2
      | workerExited =>
          simpa [sinkDrain, hstop, isCtrl] using ih _ h2
      | sourceExited =>
          simpa [sinkDrain, hstop, isCtrl] using ih _ h2
      | pyNone =>
          simp only [sinkDrain, hstop, if_false, isCtrl]
          simpa [isCtrl] using ih _ (by simpa [sinkStep] using h2)
      | noMoreJobs =>
          simp only [sinkDrain, hstop, if_false, isCtrl]
          simpa [isCtrl] using ih _ (by simpa [sinkStep] using h2)
      | obj a =>
          simp only [sinkDrain, hstop, if_false, isCtrl]
          simpa [isCtrl] using ih _ (by simpa [sinkStep] using h2)

lemma count_obj_filter {α : Type} [DecidableEq α] (r : α) (msgs : List (Wire α)) :
    (msgs.filter (fun m => !isCtrl m)).count (Wire.obj r) = msgs.count (Wire.obj r) := by
  induction msgs with
  | nil => rfl
  | cons m rest ih => cases m <;> simp [List.count_cons, isCtrl, ih]

/-- C1: a result value R submitted via `Worker.send(R)` is put on the wire as
the payload object itself, unchanged; and provided the sink's loop never hits
its exhaustion condition while results remain undelivered, the sink's
consumption yields exactly the non-control messages of its delivery sequence,
in order — so each submitted result occurrence is observed exactly once, with
payload equality preserved. -/
theorem c1_result_roundtrip {α : Type} [DecidableEq α] (st : SinkState)
    (msgs : List (Wire α)) (h : noEarlyStop st msgs = true) :
    (sinkDrain st msgs).yields = msgs.filter (fun m => !isCtrl m)
    ∧ ∀ r : α,
        (workerSend r (Wire.pyNone : Wire α)).1 = Wire.obj r
        ∧ (workerSend r (Wire.pyNone : Wire α)).2 = false
        ∧ (sinkDrain st msgs).yields.count (Wire.obj r) = msgs.count (Wire.obj r) := by
  refine ⟨sinkDrain_yields_eq msgs st h, fun r => ⟨rfl, rfl, ?_⟩⟩
  rw [sinkDrain_yields_eq msgs st h, count_obj_filter]

/-- Witness for C1 at a concrete run: one worker joins, submits results 7 and
8, exits, then the source exits; the sink yields exactly those two results. -/
theorem c1_witness :
    noEarlyStop sinkInit
        [Wire.workerJoin, Wire.obj (7 : Nat), Wire.obj 8, Wire.workerExited,
          Wire.sourceExited] = true
    ∧ (sinkDrain sinkInit
        [Wire.workerJoin, Wire.obj (7 : Nat), Wire.obj 8, Wire.workerExited,
          Wire.sourceExited]).yields.count (Wire.obj 7) =
        [Wire.workerJoin, Wire.obj (7 : Nat), Wire.obj 8, Wire.workerExited,
          Wire.sourceExited].count (Wire.obj 7) :=
  ⟨by decide,
    ((c1_result_roundtrip sinkInit
        [Wire.workerJoin, Wire.obj (7 : Nat), Wire.obj 8, Wire.workerExited,
          Wire.sourceExited] (by decide)).2 7).2.2⟩

/-! ## Lemmas about worker counting -/

lemma joins_cons {α : Type} (m : Wire α) (l : List (Wire α)) :
    joins (m :: l) = joins l + (if isJoin m then 1 else 0) := by
  simp only [joins, List.countP_cons]
  by_cases h : isJoin m = true <;> simp [h]

lemma exits_cons {α : Type} (m : Wire α) (l : List (Wire α)) :
    exits (m :: l) = exits l + (if isExit m then 1 else 0) := by
  simp only [exits, List.countP_cons]
  by_cases h : isExit m = true <;> simp [h]

lemma sourceSend_ctrl {α : Type} (task : α) (msgs : List (Wire α)) (st : SourceState)
    (hall : ∀ m ∈ msgs, isJoin m = true ∨ isExit m = true) :
    (sourceSend task st msgs).out = SendOut.blocked
    ∧ (sourceSend task st msgs).state.nworkers = st.nworkers + joins msgs - exits msgs := by
  induction msgs generalizing st with
  | nil => simp [sourceSend, joins, exits]
  | cons m rest ih =>
    have hrest : ∀ x ∈ rest, isJoin x = true ∨ isExit x = true :=
      fun x hx => hall x (List.mem_cons_of_mem m hx)
    rcases hall m (List.mem_cons_self m _) with hm | hm
    · cases m <;> simp [isJoin] at hm
      have h := ih { st with nworkers := st.nworkers + 1 } hrest
      simp only [sourceSend]
      refine ⟨h.1, ?_⟩
      rw [h.2, joins_cons, exits_cons]
      simp [isJoin, isExit]
      omega
    · cases m <;> simp [isExit] at hm
      have h := ih { st with nworkers := st.nworkers - 1 } hrest
      simp only [sourceSend]
      refine ⟨h.1, ?_⟩
      rw [h.2, joins_cons, exits_cons]
      simp [isJoin, isExit]
      omega

lemma sinkDrain_ctrl {α : Type} (msgs : List (Wire α)) (st : SinkState)
    (hall : ∀ m ∈ msgs, isJoin m = true ∨ isExit m = true)
    (hsc : st.source_closed = false) :
    (sinkDrain st msgs).stopped = false
    ∧ (sinkDrain st msgs).state.nworkers = st.nworkers + joins msgs - exits msgs := by
  induction msgs generalizing st with
  | nil => simp [sinkDrain, hsc, joins, exits]
  | cons m rest ih =>
    have hrest : ∀ x ∈ rest, isJoin x = true ∨ isExit x = true :=
      fun x hx => hall x (List.mem_cons_of_mem m hx)
    have hcond : (st.source_closed && decide (st.nworkers ≤ 0)) = false := by
      simp [hsc]
    rcases hall m (List.mem_cons_self m _) with hm | hm
    · cases m <;> simp [isJoin] at hm
      have h := ih { st with nworkers := st.nworkers + 1 } hrest hsc
      simp only [sinkDrain, hcond, Bool.false_eq_true, if_false, sinkStep]
      refine ⟨h.1, ?_⟩
      rw [h.2, joins_cons, exits_cons]
      simp [isJoin, isExit]
      omega
    · cases m <;> simp [isExit] at hm
      have h := ih { st with nworkers := st.nworkers - 1 } hrest hsc
      simp only [sinkDrain, hcond, Bool.false_eq_true, if_false, sinkStep]
      refine ⟨h.1, ?_⟩
      rw [h.2, joins_cons, exits_cons]
      simp [isJoin, isExit]
      omega

lemma countOk_split {α : Type} (p q : List (Wire α)) (n : Int) (hn : 0 ≤ n)
    (h : countOk n (p ++ q) = true) : 0 ≤ n + joins p - exits p := by
  induction p generalizing n with
  | nil => simpa [joins, exits] using hn
  | cons m p2 ih =>
    rw [List.cons_append, countOk, Bool.and_eq_true] at h
    obtain ⟨h1, h2⟩ := h
    have hn2 : 0 ≤ n + (if isJoin m then 1 else 0) - (if isExit m then 1 else 0) :=
      of_decide_eq_true h1
    have := ih _ hn2 h2
    rw [joins_cons, exits_cons]
    omega

/-- C2 counterexample: the delivery sequence `[WorkerExited, WorkerJoin]` has
N = 1 joins and M = 1 exits, so N ≥ M, yet after its first message the
Source's tracked count is −1: the count is negative at an intermediate point,
because `Source.send` decrements `nworkers` with no guard. -/
theorem c2_counterexample :
    joins ([Wire.workerExited, Wire.workerJoin] : List (Wire Nat)) = 1
    ∧ exits ([Wire.workerExited, Wire.workerJoin] : List (Wire Nat)) = 1
    ∧ (sourceSend (0 : Nat) sourceInit [Wire.workerExited, Wire.workerJoin]).state.nworkers = 0
    ∧ (sourceSend (0 : Nat) sourceInit [Wire.workerExited]).state.nworkers = -1 := by
  decide

/-- C2 (amended): for any sequence of join and exit messages delivered to the
Source's receive loop (respectively the Sink's), the tracked worker count
ends at `N − M`; and it is nonnegative at every intermediate point provided
no prefix of the delivery sequence contains more exits than joins (which the
protocol guarantees, since a worker only exits after its join was
acknowledged). -/
theorem c2_worker_count {α : Type} (task : α) (st : SourceState) (ks : SinkState)
    (msgs : List (Wire α))
    (hall : ∀ m ∈ msgs, isJoin m = true ∨ isExit m = true)
    (hsc : ks.source_closed = false) :
    ((sourceSend task st msgs).out = SendOut.blocked
      ∧ (sourceSend task st msgs).state.nworkers = st.nworkers + joins msgs - exits msgs)
    ∧ ((sinkDrain ks msgs).stopped = false
      ∧ (sinkDrain ks msgs).state.nworkers = ks.nworkers + joins msgs - exits msgs)
    ∧ (st.nworkers = 0 → ks.nworkers = 0 → countOk 0 msgs = true →
        ∀ p q, msgs = p ++ q →
          0 ≤ (sourceSend task st p).state.nworkers
          ∧ 0 ≤ (sinkDrain ks p).state.nworkers) := by
  refine ⟨sourceSend_ctrl task msgs st hall, sinkDrain_ctrl msgs ks hall hsc, ?_⟩
  intro hst hks hok p q hsplit
  subst hsplit
  have hallp : ∀ m ∈ p, isJoin m = true ∨ isExit m = true :=
    fun m hm => hall m (List.mem_append_left q hm)
  have hnn : 0 ≤ (0 : Int) + joins p - exits p :=
    countOk_split p q 0 le_rfl hok
  constructor
  · rw [(sourceSend_ctrl task p st hallp).2, hst]
    omega
  · rw [(sinkDrain_ctrl p ks hallp hsc).2, hks]
    omega

/-- Witness for the amended C2 at the concrete sequence `[join, exit]`. -/
theorem c2_witness :
    countOk 0 ([Wire.workerJoin, Wire.workerExited] : List (Wire Nat)) = true
    ∧ 0 ≤ (sourceSend (0 : Nat) sourceInit [Wire.workerJoin]).state.nworkers
    ∧ 0 ≤ (sinkDrain sinkInit ([Wire.workerJoin, Wire.workerExited] : List (Wire Nat))).state.nworkers := by
  refine ⟨by decide, ?_, ?_⟩
  · exact ((c2_worker_count (0 : Nat) sourceInit sinkInit
        [Wire.workerJoin, Wire.workerExited] (by decide) rfl).2.2 rfl rfl (by decide)
        [Wire.workerJoin] [Wire.workerExited] rfl).1
  · exact ((c2_worker_count (0 : Nat) sourceInit sinkInit
        [Wire.workerJoin, Wire.workerExited] (by decide) rfl).2.2 rfl rfl (by decide)
        [Wire.workerJoin, Wire.workerExited] [] (by simp)).2

/-! ## Exhaustion of the sink's result sequence (C5) -/

lemma sinkNext_stop_state {α : Type} (msgs : List (Wire α)) (st : SinkState)
    (h : (sinkNext st msgs).out = SinkOut.stop) :
    (sinkNext st msgs).state.source_closed = true
    ∧ (sinkNext st msgs).state.nworkers ≤ 0 := by
  induction msgs generalizing st with
  | nil =>
    by_cases hc : (!st.source_closed || decide (0 < st.nworkers)) = true
    · simp [sinkNext, hc] at h
    · simp only [Bool.or_eq_true, Bool.not_eq_true', decide_eq_true_eq, not_or] at hc
      simp [sinkNext, hc.1, hc.2]
      omega
  | cons m rest ih =>
    by_cases hc : (!st.source_closed || decide (0 < st.nworkers)) = true
    · cases m with
      | workerJoin =>
          simp only [sinkNext, hc, if_true] at h ⊢
          exact ih _ h
      | workerExited =>
          simp only [sinkNext, hc, if_true] at h ⊢
          exact ih _ h
      | sourceExited =>
          simp only [sinkNext, hc, if_true] at h ⊢
          exact ih _ h
      | pyNone => simp [sinkNext, hc] at h
      | noMoreJobs => simp [sinkNext, hc] at h
      | obj a => simp [sinkNext, hc] at h
    · simp only [Bool.or_eq_true, Bool.not_eq_true', decide_eq_true_eq, not_or] at hc
      simp [sinkNext, hc.1, hc.2]
      omega

/-- C5 counterexample: deliver `[WorkerExited, SourceExited]` to a fresh sink.
`next()` consumes both messages and raises `StopIteration` — the sequence is
exhausted — yet the tracked worker count is −1, not 0, so "exhausted iff
source-closed AND count = 0" fails; the code's condition is `count ≤ 0`. -/
theorem c5_counterexample :
    (sinkNext sinkInit ([Wire.workerExited, Wire.sourceExited] : List (Wire Nat))).out
        = SinkOut.stop
    ∧ ¬ (sinkNext sinkInit
          ([Wire.workerExited, Wire.sourceExited] : List (Wire Nat))).state.nworkers = 0 := by
  decide

/-- C5 (amended): the sink's result sequence is exhausted (a `next()` call
raises `StopIteration`) iff the source-closed flag is true and the worker
count is ≤ 0 (not exactly 0: the count can be negative when exits outnumber
joins), the condition being evaluated before each receive: a state already
satisfying it stops immediately, consuming nothing. -/
theorem c5_exhaustion {α : Type} (st : SinkState) (msgs : List (Wire α)) :
    ((sinkNext st msgs).out = SinkOut.stop →
        (sinkNext st msgs).state.source_closed = true
        ∧ (sinkNext st msgs).state.nworkers ≤ 0)
    ∧ (st.source_closed = true → st.nworkers ≤ 0 →
        sinkNext st msgs = ⟨st, 0, msgs, SinkOut.stop⟩) := by
  constructor
  · exact sinkNext_stop_state msgs st
  · intro h1 h2
    have hc : (!st.source_closed || decide (0 < st.nworkers)) = false := by
      simp [h1]
      omega
    cases msgs with
    | nil => simp [sinkNext, hc]
    | cons m rest => simp [sinkNext, hc]

/-- Witness for the amended C5: a sink state with the flag set and count 0
stops immediately; one with the flag unset does not stop. -/
theorem c5_witness :
    sinkNext (⟨0, true, false, true⟩ : SinkState) ([Wire.obj 3] : List (Wire Nat))
      = ⟨⟨0, true, false, true⟩, 0, [Wire.obj 3], SinkOut.stop⟩ :=
  (c5_exhaustion ⟨0, true, false, true⟩ [Wire.obj 3]).2 rfl (by decide)

/-! ## Lemmas about the drain loop of `Source.close` (C3, C4) -/

lemma sourceDrainLoop_pairs {α : Type} (msgs : List (Wire α)) (st : SourceState) :
    ∀ pr ∈ (sourceDrainLoop st msgs).pairs,
      (pr.1 = Wire.pyNone ∧ pr.2 = Wire.noMoreJobs)
      ∨ ((pr.1 = Wire.workerJoin ∨ pr.1 = Wire.workerExited) ∧ pr.2 = Wire.pyNone) := by
  induction msgs generalizing st with
  | nil =>
    intro pr hpr
    by_cases h : 0 < st.nworkers <;> simp [sourceDrainLoop, h] at hpr
  | cons m rest ih =>
    intro pr hpr
    by_cases h : 0 < st.nworkers
    · cases m with
      | pyNone =>
          simp only [sourceDrainLoop, h, if_true, List.mem_cons] at hpr
          rcases hpr with hpr | hpr
          · subst hpr; left; exact ⟨rfl, rfl⟩
          · exact ih _ pr hpr
      | workerJoin =>
          simp only [sourceDrainLoop, h, if_true, List.mem_cons] at hpr
          rcases hpr with hpr | hpr
          · subst hpr; right; exact ⟨Or.inl rfl, rfl⟩
          · exact ih _ pr hpr
      | workerExited =>
          simp only [sourceDrainLoop, h, if_true, List.mem_cons] at hpr
          rcases hpr with hpr | hpr
          · subst hpr; right; exact ⟨Or.inr rfl, rfl⟩
          · exact ih _ pr hpr
      | noMoreJobs => simp [sourceDrainLoop, h] at hpr
      | sourceExited => simp [sourceDrainLoop, h] at hpr
      | obj a => simp [sourceDrainLoop, h] at hpr
    · simp [sourceDrainLoop, h] at hpr

lemma sourceDrainLoop_flags {α : Type} (msgs : List (Wire α)) (st : SourceState) :
    (sourceDrainLoop st msgs).state.closed = st.closed
    ∧ (sourceDrainLoop st msgs).state.ssockOpen = st.ssockOpen
    ∧ (sourceDrainLoop st msgs).state.tsockOpen = st.tsockOpen := by
  induction msgs generalizing st with
  | nil => by_cases h : 0 < st.nworkers <;> simp [sourceDrainLoop, h]
  | cons m rest ih =>
    by_cases h : 0 < st.nworkers
    · cases m <;> simp [sourceDrainLoop, h] <;> exact ih _
    · simp [sourceDrainLoop, h]

lemma sourceDrainLoop_done_nonpos {α : Type} (msgs : List (Wire α)) (st : SourceState)
    (h : (sourceDrainLoop st msgs).out = DrainOut.done) :
    (sourceDrainLoop st msgs).state.nworkers ≤ 0 := by
  induction msgs generalizing st with
  | nil =>
    by_cases hn : 0 < st.nworkers
    · simp [sourceDrainLoop, hn] at h
    · simp [sourceDrainLoop, hn]; omega
  | cons m rest ih =>
    by_cases hn : 0 < st.nworkers
    · cases m with
      | pyNone => simp only [sourceDrainLoop, hn, if_true] at h ⊢; exact ih _ h
      | workerJoin => simp only [sourceDrainLoop, hn, if_true] at h ⊢; exact ih _ h
      | workerExited => simp only [sourceDrainLoop, hn, if_true] at h ⊢; exact ih _ h
      | noMoreJobs => simp [sourceDrainLoop, hn] at h
      | sourceExited => simp [sourceDrainLoop, hn] at h
      | obj a => simp [sourceDrainLoop, hn] at h
    · simp [sourceDrainLoop, hn]; omega

lemma sourceDrainLoop_done_zero {α : Type} (msgs : List (Wire α)) (st : SourceState)
    (h0 : 0 ≤ st.nworkers) (h : (sourceDrainLoop st msgs).out = DrainOut.done) :
    (sourceDrainLoop st msgs).state.nworkers = 0 := by
  induction msgs generalizing st with
  | nil =>
    by_cases hn : 0 < st.nworkers
    · simp [sourceDrainLoop, hn] at h
    · simp [sourceDrainLoop, hn]; omega
  | cons m rest ih =>
    by_cases hn : 0 < st.nworkers
    · cases m with
      | pyNone =>
          simp only [sourceDrainLoop, hn, if_true] at h ⊢
          exact ih _ h0 h
      | workerJoin =>
          simp only [sourceDrainLoop, hn, if_true] at h ⊢
          exact ih _ (by change 0 ≤ st.nworkers + 1; omega) h
      | workerExited =>
          simp only [sourceDrainLoop, hn, if_true] at h ⊢
          exact ih _ (by change 0 ≤ st.nworkers - 1; omega) h
      | noMoreJobs => simp [sourceDrainLoop, hn] at h
      | sourceExited => simp [sourceDrainLoop, hn] at h
      | obj a => simp [sourceDrainLoop, hn] at h
    · simp [sourceDrainLoop, hn]; omega

lemma sourceDrainLoop_nonpos_eq {α : Type} (msgs : List (Wire α)) (st : SourceState)
    (h : st.nworkers ≤ 0) :
    sourceDrainLoop st msgs = ⟨st, [], msgs, DrainOut.done⟩ := by
  cases msgs with
  | nil => simp [sourceDrainLoop]; omega
  | cons m rest =>
    have hn : ¬ 0 < st.nworkers := by omega
    simp [sourceDrainLoop, hn]

lemma sourceClose_pairs_sub {α : Type} (st : SourceState) (msgs : List (Wire α))
    (rep : Wire α) :
    ∀ pr ∈ (sourceClose st msgs rep).pairs,
      (pr.1 = Wire.pyNone ∧ pr.2 = Wire.noMoreJobs)
      ∨ ((pr.1 = Wire.workerJoin ∨ pr.1 = Wire.workerExited) ∧ pr.2 = Wire.pyNone) := by
  intro pr hpr
  by_cases hcl : st.closed = true
  · simp [sourceClose, hcl] at hpr
  · have hmem : pr ∈ (sourceDrainLoop { st with closed := true } msgs).pairs := by
      rcases hout : (sourceDrainLoop { st with closed := true } msgs).out with _ | _ | _
      · cases rep <;> simpa [sourceClose, sourceCloseAux, hcl, hout] using hpr
      · simpa [sourceClose, sourceCloseAux, hcl, hout] using hpr
      · simpa [sourceClose, sourceCloseAux, hcl, hout] using hpr
    exact sourceDrainLoop_pairs msgs _ pr hmem

/-- C3: once `Source.close()` has been invoked, every plain (`None`)
task-request the source services is answered with `NoMoreJobsMessage`, and on
receiving `NoMoreJobsMessage` a `Worker.next()` call signals end-of-sequence
(`StopIteration`), never a task. -/
theorem c3_no_more_jobs {α : Type} (st : SourceState) (msgs : List (Wire α))
    (rep : Wire α) :
    (∀ pr ∈ (sourceClose st msgs rep).pairs, pr.1 = Wire.pyNone → pr.2 = Wire.noMoreJobs)
    ∧ workerNext (Wire.noMoreJobs : Wire α) = none := by
  refine ⟨fun pr hpr h1 => ?_, rfl⟩
  rcases sourceClose_pairs_sub st msgs rep pr hpr with ⟨_, h2⟩ | ⟨h2, _⟩
  · exact h2
  · rcases h2 with h2 | h2 <;> rw [h1] at h2 <;> exact Wire.noConfusion h2

/-- Witness for C3: with one worker connected, a plain request during
`close()` is in the serviced pairs and is answered `NoMoreJobs`. -/
theorem c3_witness :
    workerNext (Wire.noMoreJobs : Wire Nat) = none
    ∧ ((Wire.pyNone, Wire.noMoreJobs) : Wire Nat × Wire Nat).2 = Wire.noMoreJobs :=
  ⟨(c3_no_more_jobs sourceInit [] Wire.pyNone).2,
    (c3_no_more_jobs { sourceInit with nworkers := 1 }
        [Wire.pyNone, Wire.workerExited] Wire.pyNone).1
      (Wire.pyNone, Wire.noMoreJobs) (by decide) rfl⟩

/-- C4: `Source.close()` keeps servicing join/exit messages (acknowledging
each with the null reply) until the worker count reaches 0; only then does it
send `SourceExited` to the sink (so a sent `SourceExited` implies the count
is 0, when it started nonnegative); the call completes normally iff the
sink's reply is the null acknowledgement, and only then are both endpoints
released — any other reply is a protocol error and the sockets stay as they
were. -/
theorem c4_close_handshake {α : Type} (st : SourceState) (msgs : List (Wire α))
    (rep : Wire α) (h : st.closed = false) :
    (∀ pr ∈ (sourceClose st msgs rep).pairs,
        (pr.1 = Wire.workerJoin ∨ pr.1 = Wire.workerExited) → pr.2 = Wire.pyNone)
    ∧ ((sourceClose st msgs rep).sinkMsg = some Wire.sourceExited →
        (sourceClose st msgs rep).state.nworkers ≤ 0)
    ∧ (0 ≤ st.nworkers → (sourceClose st msgs rep).sinkMsg = some Wire.sourceExited →
        (sourceClose st msgs rep).state.nworkers = 0)
    ∧ ((sourceClose st msgs rep).out = CloseOut.done ↔
        ((sourceClose st msgs rep).sinkMsg = some Wire.sourceExited ∧ rep = Wire.pyNone))
    ∧ ((sourceClose st msgs rep).out = CloseOut.done →
        (sourceClose st msgs rep).state.ssockOpen = false
        ∧ (sourceClose st msgs rep).state.tsockOpen = false)
    ∧ ((sourceClose st msgs rep).sinkMsg = some Wire.sourceExited → rep ≠ Wire.pyNone →
        (sourceClose st msgs rep).out = CloseOut.errBadSinkReply
        ∧ (sourceClose st msgs rep).state.ssockOpen = st.ssockOpen
        ∧ (sourceClose st msgs rep).state.tsockOpen = st.tsockOpen) := by
  have hcl : ¬ st.closed = true := by simp [h]
  have hpairs : ∀ pr ∈ (sourceClose st msgs rep).pairs,
      (pr.1 = Wire.workerJoin ∨ pr.1 = Wire.workerExited) → pr.2 = Wire.pyNone := by
    intro pr hpr hje
    rcases sourceClose_pairs_sub st msgs rep pr hpr with ⟨h2, _⟩ | ⟨_, h2⟩
    · rcases hje with hje | hje <;> rw [hje] at h2 <;> exact Wire.noConfusion h2
    · exact h2
  have hnp := sourceDrainLoop_done_nonpos msgs { st with closed := true }
  have hz := sourceDrainLoop_done_zero msgs { st with closed := true }
  have hfl := sourceDrainLoop_flags msgs { st with closed := true }
  have hclose : sourceClose st msgs rep =
      sourceCloseAux (sourceDrainLoop { st with closed := true } msgs) rep := by
    unfold sourceClose
    rw [if_neg hcl]
  refine ⟨hpairs, ?_, ?_, ?_, ?_, ?_⟩ <;> rw [hclose] <;>
    rcases hout : (sourceDrainLoop { st with closed := true } msgs).out with _ | _ | _
  · intro hs
    cases rep <;> simp [sourceCloseAux, hout] <;> exact hnp hout
  · intro hs
    simp [sourceCloseAux, hout] at hs
  · intro hs
    simp [sourceCloseAux, hout] at hs
  · intro h0 hs
    have h0' : 0 ≤ SourceState.nworkers { st with closed := true } := h0
    cases rep <;> simp [sourceCloseAux, hout] <;> exact hz h0' hout
  · intro h0 hs
    simp [sourceCloseAux, hout] at hs
  · intro h0 hs
    simp [sourceCloseAux, hout] at hs
  · cases rep <;> simp [sourceCloseAux, hout]
  · cases rep <;> simp [sourceCloseAux, hout]
  · cases rep <;> simp [sourceCloseAux, hout]
  · intro hd
    cases rep <;> simp [sourceCloseAux, hout] at hd ⊢
  · intro hd
    simp [sourceCloseAux, hout] at hd
  · intro hd
    simp [sourceCloseAux, hout] at hd
  · intro hs hrep
    cases rep with
    | pyNone => exact absurd rfl hrep
    | workerJoin => simpa [sourceCloseAux, hout] using ⟨hfl.2.1, hfl.2.2⟩
    | workerExited => simpa [sourceCloseAux, hout] using ⟨hfl.2.1, hfl.2.2⟩
    | noMoreJobs => simpa [sourceCloseAux, hout] using ⟨hfl.2.1, hfl.2.2⟩
    | sourceExited => simpa [sourceCloseAux, hout] using ⟨hfl.2.1, hfl.2.2⟩
    | obj a => simpa [sourceCloseAux, hout] using ⟨hfl.2.1, hfl.2.2⟩
  · intro hs hrep
    simp [sourceCloseAux, hout] at hs
  · intro hs hrep
    simp [sourceCloseAux, hout] at hs

/-- Witness for C4 at a concrete run: one worker, which exits during the
drain; the sink acknowledges; the count ends at 0 and both sockets close. -/
theorem c4_witness :
    (sourceClose { sourceInit with nworkers := 1 } [Wire.workerExited]
        (Wire.pyNone : Wire Nat)).state.nworkers = 0
    ∧ (sourceClose { sourceInit with nworkers := 1 } [Wire.workerExited]
        (Wire.pyNone : Wire Nat)).state.ssockOpen = false
    ∧ (sourceClose { sourceInit with nworkers := 1 } [Wire.workerExited]
        (Wire.pyNone : Wire Nat)).state.tsockOpen = false :=
  ⟨(c4_close_handshake { sourceInit with nworkers := 1 } [Wire.workerExited]
      Wire.pyNone rfl).2.2.1 (by decide) (by decide),
    (c4_close_handshake { sourceInit with nworkers := 1 } [Wire.workerExited]
      Wire.pyNone rfl).2.2.2.2.1 (by decide)⟩

/-! ## `Source.send` (C6) -/

lemma sourceSend_pre {α : Type} (task : α) (pre rest : List (Wire α)) (st : SourceState)
    (hall : ∀ x ∈ pre, isJoin x = true ∨ isExit x = true) :
    sourceSend task st (pre ++ Wire.pyNone :: rest) =
      ⟨{ st with nworkers := st.nworkers + joins pre - exits pre },
        pre.map (fun _ => Wire.pyNone) ++ [Wire.obj task], rest, SendOut.sent⟩ := by
  induction pre generalizing st with
  | nil => simp [sourceSend, joins, exits]
  | cons x pre2 ih =>
    have hrest : ∀ y ∈ pre2, isJoin y = true ∨ isExit y = true :=
      fun y hy => hall y (List.mem_cons_of_mem x hy)
    rcases hall x (List.mem_cons_self x _) with hx | hx
    · cases x <;> simp [isJoin] at hx
      rw [List.cons_append]
      simp only [sourceSend]
      rw [ih _ hrest]
      simp [joins_cons, exits_cons, isJoin, isExit, SendRes.mk.injEq,
        SourceState.mk.injEq]
      omega
    · cases x <;> simp [isExit] at hx
      rw [List.cons_append]
      simp only [sourceSend]
      rw [ih _ hrest]
      simp [joins_cons, exits_cons, isJoin, isExit, SendRes.mk.injEq,
        SourceState.mk.injEq]
      omega

lemma sourceSend_pre_err {α : Type} (task : α) (pre rest : List (Wire α)) (m : Wire α)
    (st : SourceState)
    (hall : ∀ x ∈ pre, isJoin x = true ∨ isExit x = true)
    (hm : isOther m = true) :
    sourceSend task st (pre ++ m :: rest) =
      ⟨{ st with nworkers := st.nworkers + joins pre - exits pre },
        pre.map (fun _ => Wire.pyNone), rest, SendOut.err⟩ := by
  induction pre generalizing st with
  | nil =>
    cases m <;> simp [isOther] at hm <;> simp [sourceSend, joins, exits]
  | cons x pre2 ih =>
    have hrest : ∀ y ∈ pre2, isJoin y = true ∨ isExit y = true :=
      fun y hy => hall y (List.mem_cons_of_mem x hy)
    rcases hall x (List.mem_cons_self x _) with hx | hx
    · cases x <;> simp [isJoin] at hx
      rw [List.cons_append]
      simp only [sourceSend]
      rw [ih _ hrest]
      simp [joins_cons, exits_cons, isJoin, isExit, SendRes.mk.injEq,
        SourceState.mk.injEq]
      omega
    · cases x <;> simp [isExit] at hx
      rw [List.cons_append]
      simp only [sourceSend]
      rw [ih _ hrest]
      simp [joins_cons, exits_cons, isJoin, isExit, SendRes.mk.injEq,
        SourceState.mk.injEq]
      omega

/-- C6: `Source.send(task)` services join/exit messages (acknowledging each
with the null reply and adjusting the count) until the first plain (`None`)
request, which it answers with the task before returning; the count then
reflects the joins and exits seen while waiting.  If instead some other
message arrives first, `Error` is raised at that point, after the same
bookkeeping. -/
theorem c6_send_services_requests {α : Type} (task : α) (pre rest : List (Wire α))
    (m : Wire α) (st : SourceState)
    (hall : ∀ x ∈ pre, isJoin x = true ∨ isExit x = true)
    (hm : isOther m = true) :
    sourceSend task st (pre ++ Wire.pyNone :: rest) =
      ⟨{ st with nworkers := st.nworkers + joins pre - exits pre },
        pre.map (fun _ => Wire.pyNone) ++ [Wire.obj task], rest, SendOut.sent⟩
    ∧ sourceSend task st (pre ++ m :: rest) =
      ⟨{ st with nworkers := st.nworkers + joins pre - exits pre },
        pre.map (fun _ => Wire.pyNone), rest, SendOut.err⟩ :=
  ⟨sourceSend_pre task pre rest st hall,
    sourceSend_pre_err task pre rest m st hall hm⟩

/-- Witness for C6: a join then a plain request; the join is acknowledged,
the count rises to 1, and the task is handed out; a `SourceExitedMessage`
in place of the plain request raises `Error`. -/
theorem c6_witness :
    sourceSend (9 : Nat) sourceInit [Wire.workerJoin, Wire.pyNone, Wire.workerExited] =
      ⟨⟨1, false, true, true⟩, [Wire.pyNone, Wire.obj 9], [Wire.workerExited],
        SendOut.sent⟩
    ∧ sourceSend (9 : Nat) sourceInit [Wire.workerJoin, Wire.sourceExited] =
      ⟨⟨1, false, true, true⟩, [Wire.pyNone], [], SendOut.err⟩ := by
  have h := c6_send_services_requests (9 : Nat) [Wire.workerJoin]
    [Wire.workerExited] Wire.sourceExited sourceInit (by decide) (by decide)
  have h2 := c6_send_services_requests (9 : Nat) [Wire.workerJoin]
    [] Wire.sourceExited sourceInit (by decide) (by decide)
  constructor
  · rw [show ([Wire.workerJoin, Wire.pyNone, Wire.workerExited] : List (Wire Nat)) =
        [Wire.workerJoin] ++ Wire.pyNone :: [Wire.workerExited] from rfl, h.1]
    decide
  · rw [show ([Wire.workerJoin, Wire.sourceExited] : List (Wire Nat)) =
        [Wire.workerJoin] ++ Wire.sourceExited :: [] from rfl, h2.2]
    decide

/-! ## Worker handshakes (C7) -/

/-- C7: a non-null reply to a `WorkerJoin` sent during construction, at
either the source or the sink step, raises `Error` and no worker object is
produced (the worker cannot proceed to task processing); moreover a bad
source reply means the sink join is never sent.  Likewise a non-null reply
to either `WorkerExited` of `close()` raises `Error`. -/
theorem c7_handshake_errors {α : Type} (bad good : Wire α) (st : WorkerState)
    (hbad : bad ≠ Wire.pyNone) (hst : st.closed = false) :
    ((workerInit bad good).errored = true
      ∧ (workerInit bad good).worker = none
      ∧ (workerInit bad good).sinkMsgs = [])
    ∧ ((workerInit Wire.pyNone bad).errored = true
      ∧ (workerInit Wire.pyNone bad).worker = none)
    ∧ (workerClose st bad good).errored = true
    ∧ (workerClose st Wire.pyNone bad).errored = true := by
  have hst' : ¬ st.closed = true := by simp [hst]
  cases bad with
  | pyNone => exact absurd rfl hbad
  | workerJoin => exact ⟨⟨rfl, rfl, rfl⟩, ⟨rfl, rfl⟩, by simp [workerClose, hst'],
      by simp [workerClose, hst']⟩
  | workerExited => exact ⟨⟨rfl, rfl, rfl⟩, ⟨rfl, rfl⟩, by simp [workerClose, hst'],
      by simp [workerClose, hst']⟩
  | noMoreJobs => exact ⟨⟨rfl, rfl, rfl⟩, ⟨rfl, rfl⟩, by simp [workerClose, hst'],
      by simp [workerClose, hst']⟩
  | sourceExited => exact ⟨⟨rfl, rfl, rfl⟩, ⟨rfl, rfl⟩, by simp [workerClose, hst'],
      by simp [workerClose, hst']⟩
  | obj a => exact ⟨⟨rfl, rfl, rfl⟩, ⟨rfl, rfl⟩, by simp [workerClose, hst'],
      by simp [workerClose, hst']⟩

/-- Witness for C7: a `NoMoreJobsMessage` reply to the join makes the
construction fail without producing a worker. -/
theorem c7_witness :
    (workerInit (Wire.noMoreJobs : Wire Nat) Wire.pyNone).errored = true
    ∧ (workerInit (Wire.noMoreJobs : Wire Nat) Wire.pyNone).worker = none :=
  ⟨(c7_handshake_errors (Wire.noMoreJobs : Wire Nat) Wire.pyNone ⟨false⟩
      (by decide) rfl).1.1,
    (c7_handshake_errors (Wire.noMoreJobs : Wire Nat) Wire.pyNone ⟨false⟩
      (by decide) rfl).1.2.1⟩

/-! ## Idempotence of `close()` (C8) -/

/-- C8: on all three roles, any `close()` invocation leaves the object with
`closed = true`, and `close()` on an already-closed object is a no-op: it
performs no handshake, sends no message, and returns the state unchanged. -/
theorem c8_close_idempotent {α : Type} (ss : SourceState) (ks : SinkState)
    (ws : WorkerState) (msgs : List (Wire α)) (rep q1 q2 : Wire α)
    (h1 : ss.closed = true) (h2 : ks.closed = true) (h3 : ws.closed = true) :
    sourceClose ss msgs rep = ⟨ss, [], msgs, none, CloseOut.noop⟩
    ∧ sinkClose ks = (ks, false)
    ∧ workerClose ws q1 q2 = ⟨ws, [], [], false⟩
    ∧ (∀ ss2 : SourceState, ss2.closed = false →
        (sourceClose ss2 msgs rep).state.closed = true)
    ∧ (∀ ks2 : SinkState, ks2.closed = false → (sinkClose ks2).1.closed = true)
    ∧ (∀ ws2 : WorkerState, ws2.closed = false →
        (workerClose ws2 q1 q2).state.closed = true) := by
  refine ⟨by simp [sourceClose, h1], by simp [sinkClose, h2],
    by simp [workerClose, h3], ?_, ?_, ?_⟩
  · intro ss2 hss2
    have hcl : ¬ ss2.closed = true := by simp [hss2]
    have hfl := (sourceDrainLoop_flags msgs { ss2 with closed := true }).1
    unfold sourceClose
    rw [if_neg hcl]
    rcases hout : (sourceDrainLoop { ss2 with closed := true } msgs).out with _ | _ | _
    · cases rep <;> simp [sourceCloseAux, hout] <;> exact hfl
    · simp [sourceCloseAux, hout]
      exact hfl
    · simp [sourceCloseAux, hout]
      exact hfl
  · intro ks2 hks2
    simp [sinkClose, hks2]
  · intro ws2 hws2
    have hcl : ¬ ws2.closed = true := by simp [hws2]
    cases q1 <;> cases q2 <;> simp [workerClose, hcl]

/-- Witness for C8: closing an already-closed source, sink, and worker
changes nothing and sends nothing. -/
theorem c8_witness :
    sourceClose ⟨0, true, false, false⟩ ([Wire.pyNone] : List (Wire Nat)) Wire.pyNone
        = ⟨⟨0, true, false, false⟩, [], [Wire.pyNone], none, CloseOut.noop⟩
    ∧ sinkClose ⟨0, true, true, false⟩ = (⟨0, true, true, false⟩, false)
    ∧ workerClose ⟨true⟩ (Wire.pyNone : Wire Nat) Wire.pyNone = ⟨⟨true⟩, [], [], false⟩ :=
  ⟨(c8_close_idempotent ⟨0, true, false, false⟩ ⟨0, true, true, false⟩ ⟨true⟩
      ([Wire.pyNone] : List (Wire Nat)) Wire.pyNone Wire.pyNone Wire.pyNone
      rfl rfl rfl).1,
    (c8_close_idempotent ⟨0, true, false, false⟩ ⟨0, true, true, false⟩ ⟨true⟩
      ([Wire.pyNone] : List (Wire Nat)) Wire.pyNone Wire.pyNone Wire.pyNone
      rfl rfl rfl).2.1,
    (c8_close_idempotent ⟨0, true, false, false⟩ ⟨0, true, true, false⟩ ⟨true⟩
      ([Wire.pyNone] : List (Wire Nat)) Wire.pyNone Wire.pyNone Wire.pyNone
      rfl rfl rfl).2.2.1⟩

/-! ## `closed` is set before the handshakes (C9) -/

/-- C9: every `close()` sets `closed` before any handshake or teardown, so a
protocol error inside the close leaves the object marked closed.  In
particular, after `Worker.close()` receives a non-null reply from the source,
`Error` is raised, the `WorkerExited` to the sink is never sent, the worker
stays closed, and any later `close()` is a no-op.  Likewise an errored
`Source.close()` (bad request in the drain, so the `SourceExited` handshake
never happens, or bad sink reply) leaves the source closed and a later
`close()` a no-op; `Sink.close()` sets `closed` before its teardown. -/
theorem c9_error_leaves_closed {α : Type} (ws : WorkerState) (bad q a1 a2 : Wire α)
    (msgs : List (Wire α)) (rep : Wire α)
    (hws : ws.closed = false) (hbad : bad ≠ Wire.pyNone) :
    ((workerClose ws bad q).errored = true
      ∧ (workerClose ws bad q).state.closed = true
      ∧ (workerClose ws bad q).sinkMsgs = []
      ∧ workerClose (workerClose ws bad q).state a1 a2 =
          ⟨(workerClose ws bad q).state, [], [], false⟩)
    ∧ (∀ ss : SourceState, ss.closed = false →
        (sourceClose ss msgs rep).state.closed = true
        ∧ ((sourceClose ss msgs rep).out = CloseOut.errInvalidReq →
            (sourceClose ss msgs rep).sinkMsg = none)
        ∧ sourceClose (sourceClose ss msgs rep).state msgs rep =
            ⟨(sourceClose ss msgs rep).state, [], msgs, none, CloseOut.noop⟩)
    ∧ (∀ ks : SinkState, ks.closed = false → (sinkClose ks).1.closed = true
        ∧ sinkClose (sinkClose ks).1 = ((sinkClose ks).1, false)) := by
  have hws' : ¬ ws.closed = true := by simp [hws]
  have hwc : workerClose ws bad q = ⟨⟨true⟩, [Wire.workerExited], [], true⟩ := by
    cases bad with
    | pyNone => exact absurd rfl hbad
    | workerJoin => simp [workerClose, hws']
    | workerExited => simp [workerClose, hws']
    | noMoreJobs => simp [workerClose, hws']
    | sourceExited => simp [workerClose, hws']
    | obj a => simp [workerClose, hws']
  refine ⟨?_, ?_, ?_⟩
  · rw [hwc]
    exact ⟨rfl, rfl, rfl, by simp [workerClose]⟩
  · intro ss hss
    have hcl : ¬ ss.closed = true := by simp [hss]
    have hfl := (sourceDrainLoop_flags msgs { ss with closed := true }).1
    have hclosed : (sourceClose ss msgs rep).state.closed = true := by
      unfold sourceClose
      rw [if_neg hcl]
      rcases hout : (sourceDrainLoop { ss with closed := true } msgs).out with _ | _ | _
      · cases rep <;> simp [sourceCloseAux, hout] <;> exact hfl
      · simp [sourceCloseAux, hout]
        exact hfl
      · simp [sourceCloseAux, hout]
        exact hfl
    have hnoop : ∀ s2 : SourceState, s2.closed = true →
        sourceClose s2 msgs rep = ⟨s2, [], msgs, none, CloseOut.noop⟩ := by
      intro s2 h2
      unfold sourceClose
      rw [if_pos h2]
    refine ⟨hclosed, ?_, hnoop _ hclosed⟩
    intro herr
    unfold sourceClose at herr ⊢
    rw [if_neg hcl] at herr ⊢
    rcases hout : (sourceDrainLoop { ss with closed := true } msgs).out with _ | _ | _
    · cases rep <;> simp [sourceCloseAux, hout] at herr
    · simp [sourceCloseAux, hout] at herr
    · simp [sourceCloseAux, hout]
  · intro ks hks
    have h1 : (sinkClose ks).1.closed = true := by simp [sinkClose, hks]
    have hnoop2 : ∀ k2 : SinkState, k2.closed = true → sinkClose k2 = (k2, false) := by
      intro k2 h2
      unfold sinkClose
      rw [if_pos h2]
    exact ⟨h1, hnoop2 _ h1⟩

/-- Witness for C9: a worker whose exit to the source is answered with a
task payload stays closed, never contacts the sink, and later closes are
no-ops. -/
theorem c9_witness :
    (workerClose ⟨false⟩ (Wire.obj (3 : Nat)) Wire.pyNone).errored = true
    ∧ (workerClose ⟨false⟩ (Wire.obj (3 : Nat)) Wire.pyNone).state.closed = true
    ∧ (workerClose ⟨false⟩ (Wire.obj (3 : Nat)) Wire.pyNone).sinkMsgs = [] :=
  ⟨(c9_error_leaves_closed ⟨false⟩ (Wire.obj (3 : Nat)) Wire.pyNone Wire.pyNone
      Wire.pyNone [] Wire.pyNone rfl (by decide)).1.1,
    (c9_error_leaves_closed ⟨false⟩ (Wire.obj (3 : Nat)) Wire.pyNone Wire.pyNone
      Wire.pyNone [] Wire.pyNone rfl (by decide)).1.2.1,
    (c9_error_leaves_closed ⟨false⟩ (Wire.obj (3 : Nat)) Wire.pyNone Wire.pyNone
      Wire.pyNone [] Wire.pyNone rfl (by decide)).1.2.2.1⟩

/-! ## `Source.close` with no workers (C10) -/

/-- C10: if `Source.close()` runs while the worker count is already 0, the
drain loop is skipped entirely — no request is serviced (so no `NoMoreJobs`
is ever sent) and the delivered input is left untouched — and the source
immediately sends `SourceExited`; when the sink acknowledges with the null
reply, both sockets are released. -/
theorem c10_close_no_workers {α : Type} (st : SourceState) (msgs : List (Wire α))
    (h : st.closed = false) (hn : st.nworkers = 0) :
    sourceClose st msgs Wire.pyNone =
      ⟨{ st with closed := true, ssockOpen := false, tsockOpen := false },
        [], msgs, some Wire.sourceExited, CloseOut.done⟩
    ∧ ∀ rep : Wire α,
        (sourceClose st msgs rep).pairs = []
        ∧ (sourceClose st msgs rep).rest = msgs
        ∧ (sourceClose st msgs rep).sinkMsg = some Wire.sourceExited := by
  have hcl : ¬ st.closed = true := by simp [h]
  have hd : sourceDrainLoop { st with closed := true } msgs =
      ⟨{ st with closed := true }, [], msgs, DrainOut.done⟩ :=
    sourceDrainLoop_nonpos_eq msgs _ (by change st.nworkers ≤ 0; omega)
  constructor
  · unfold sourceClose
    rw [if_neg hcl, hd]
    rfl
  · intro rep
    unfold sourceClose
    rw [if_neg hcl, hd]
    cases rep <;> simp [sourceCloseAux]

/-- Witness for C10: closing a fresh source with a pending plain request
leaves the request unserviced and closes both sockets after the sink's
acknowledgement. -/
theorem c10_witness :
    sourceClose sourceInit ([Wire.pyNone] : List (Wire Nat)) Wire.pyNone =
      ⟨⟨0, true, false, false⟩, [], [Wire.pyNone], some Wire.sourceExited,
        CloseOut.done⟩
    ∧ (sourceClose sourceInit ([Wire.pyNone] : List (Wire Nat)) Wire.noMoreJobs).pairs
        = [] :=
  ⟨(c10_close_no_workers sourceInit ([Wire.pyNone] : List (Wire Nat)) rfl rfl).1,
    ((c10_close_no_workers sourceInit ([Wire.pyNone] : List (Wire Nat)) rfl rfl).2
      Wire.noMoreJobs).1⟩

end Pypb
